import Mathlib

/-!
Verification of the bid-crawler core: a shallow embedding of the data model
(`BidInfo`), the multi-stage filter pipeline (`DataFilter`), the pagination
driver (`BaseParser.fetch_list` / `fetch_all`), the crawl engine
(`CrawlerEngine.crawl_website` / `crawl_all`) and the amount-normalisation
helper (`parse_amount`), together with theorems settling the specification
claims about them.

Modelling conventions:
- Python strings are Lean `String`s; case-insensitive matching lowers
  characters with `Char.toLower` (ASCII case folding, the identity on the
  CJK text the program works with, mirroring `str.lower`).
- `datetime` values are calendar dates `(year, month, day)`; chronological
  comparison of valid dates is their lexicographic comparison.  The wall
  clock read by `is_date_in_range` (`now - timedelta(days)`) enters the
  model as a precomputed `date_limit` field of the filter configuration.
- `float` amounts are rationals `ℚ`; the amounts handled by the program
  are small decimals, exactly representable in both.
- MD5 itself is opaque to every claim, so the fingerprint is modelled as
  `md5 (uniqueStr r)` for a universally quantified `md5 : String → String`
  applied to the exact concatenation the source builds.
- Exceptions are modelled with `Except`; code that catches an exception
  pattern-matches on the `Except.error` constructor.
-/

namespace BidCrawler

/-- A calendar date standing for a Python `datetime` (time-of-day is never
relevant to the claims). -/
structure Date where
  year : Nat
  month : Nat
  day : Nat
deriving DecidableEq, Repr

/-- Left-pad the decimal representation of `n` with zeros to width `w`
(`%04d` / `%02d` in `strftime`). -/
def padNum (w : Nat) (n : Nat) : String :=
  let s := toString n
  String.mk (List.replicate (w - s.length) '0') ++ s

/-- `datetime.strftime('%Y%m%d')`. -/
def Date.fmtYYYYMMDD (d : Date) : String :=
  padNum 4 d.year ++ padNum 2 d.month ++ padNum 2 d.day

/-- Chronological `≤` on dates (`datetime.__le__`), lexicographic on
year, month, day. -/
def Date.leB (a b : Date) : Bool :=
  if a.year < b.year then true
  else if b.year < a.year then false
  else if a.month < b.month then true
  else if b.month < a.month then false
  else decide (a.day ≤ b.day)

/-- Lowercase a character list: model of `str.lower()` for the strings the
program manipulates. -/
def lowerChars (cs : List Char) : List Char :=
  cs.map Char.toLower

/-- `sub.isPrefixOf hay || ...` scan: model of Python's substring test
`sub in hay` on character lists. -/
def containsChars (sub : List Char) : List Char → Bool
  | [] => sub.isEmpty
  | c :: rest => sub.isPrefixOf (c :: rest) || containsChars sub rest

/-- Python `sub in hay` on strings. -/
def strContains (hay sub : String) : Bool :=
  containsChars sub.data hay.data

/-- Case-insensitive substring test: `sub.lower() in hay.lower()`. -/
def strContainsCI (hay sub : String) : Bool :=
  containsChars (lowerChars sub.data) (lowerChars hay.data)

/-- Python truthiness of an optional string: `None` and `""` are falsy. -/
def truthyStr : Option String → Bool
  | none => false
  | some s => !(s == "")

/-- An industry entry of the configuration (`name` + `keywords`),
`src/src/models/bid_info.py` `classify_industry`. -/
structure Industry where
  name : String := ""
  keywords : List String := []
deriving DecidableEq, Repr

/-- The normalized tender record, `src/src/models/bid_info.py` (`BidInfo`).
Fields irrelevant to every claim (`crawl_time`) are omitted; `budget` is a
rational in units of ten-thousand yuan. -/
structure BidInfo where
  title : String
  url : String
  source : String
  bid_no : Option String := none
  purchaser : Option String := none
  agency : Option String := none
  publish_date : Option Date := none
  deadline : Option Date := none
  budget : Option ℚ := none
  contact : Option String := none
  address : Option String := none
  industry : Option String := none
  matched_keywords : List String := []
  content_hash : Option String := none
deriving DecidableEq, Repr

/-- `BidInfo.is_valid`: title, url, source non-empty and
`5 ≤ len(title) ≤ 500`. -/
def BidInfo.is_valid (r : BidInfo) : Bool :=
  if r.title == "" || r.url == "" || r.source == "" then false
  else if r.title.length < 5 || r.title.length > 500 then false
  else true

/-- The string hashed by `BidInfo.calculate_hash`: the title, then
`"_" + publish_date.strftime('%Y%m%d')` when the date is set, then
`"_" + purchaser` when the purchaser is truthy. -/
def uniqueStr (r : BidInfo) : String :=
  (r.title
      ++ (match r.publish_date with
          | some d => "_" ++ d.fmtYYYYMMDD
          | none => ""))
    ++ (if truthyStr r.purchaser then "_" ++ r.purchaser.getD "" else "")

/-- `BidInfo.calculate_hash`: computes the fingerprint and stores it on the
record (`self.content_hash = hash_value`), returning both.  `md5` stands
for `hashlib.md5(...).hexdigest()`. -/
def BidInfo.calculate_hash (md5 : String → String) (r : BidInfo) :
    String × BidInfo :=
  let h := md5 (uniqueStr r)
  (h, { r with content_hash := some h })

/-- The fingerprint value of a record under hash function `md5`. -/
def hashVal (md5 : String → String) (r : BidInfo) : String :=
  md5 (uniqueStr r)

/-- `BidInfo.match_keywords`: empty keyword list yields no match; otherwise
collect (in keyword-list order) the keywords whose lowercase form is a
substring of the lowercase title; on success store them on the record. -/
def BidInfo.match_keywords (r : BidInfo) (keywords : List String) :
    Bool × BidInfo :=
  if keywords.isEmpty then (false, r)
  else
    let matched := keywords.filter (fun k => strContainsCI r.title k)
    if matched.isEmpty then (false, r)
    else (true, { r with matched_keywords := matched })

/-- Scan of the configured industries in `BidInfo.classify_industry`:
first industry one of whose keywords occurs (case-insensitively) in the
purchaser text wins. -/
def findIndustry (purchaserText : String) : List Industry → Option String
  | [] => none
  | ind :: rest =>
      if ind.keywords.any (fun k => strContainsCI purchaserText k) then
        some ind.name
      else findIndustry purchaserText rest

/-- `BidInfo.classify_industry`: stamp `industry` with the first matching
configured industry (matched against `self.purchaser or ''`). -/
def BidInfo.classify_industry (r : BidInfo) (industries : List Industry) :
    BidInfo :=
  if industries.isEmpty then r
  else
    match findIndustry (r.purchaser.getD "") industries with
    | some nm => { r with industry := some nm }
    | none => r

/-- The configuration read by `DataFilter.__init__` plus the wall-clock
input of the date stage: `date_limit` stands for the value
`datetime.now() - timedelta(days=date_range)` that `is_date_in_range`
compares publish dates against. -/
structure FilterConfig where
  keywords : List String := []
  industries : List Industry := []
  date_range : Int := 7
  min_amount : ℚ := 0
  max_amount : ℚ := 0
  date_limit : Date := ⟨1970, 1, 1⟩
deriving DecidableEq, Repr

/-- `helpers.is_date_in_range` as seen by the filter: the publish date is
in range iff it is not before the precomputed limit (`date >= date_limit`). -/
def is_date_in_range (date_limit d : Date) : Bool :=
  Date.leB date_limit d

/-- The dedup index `DataFilter._seen_hashes`, modelled as the list of
inserted fingerprints. -/
abbrev DedupIndex := List String

/-- `DataFilter._check_duplicate`: compute (and store) the record's hash;
reject when it is already in the index, otherwise insert it. -/
def check_duplicate (md5 : String → String) (seen : DedupIndex)
    (r : BidInfo) : Bool × DedupIndex × BidInfo :=
  let p := r.calculate_hash md5
  if p.1 ∈ seen then (false, seen, p.2)
  else (true, p.1 :: seen, p.2)

/-- `DataFilter._match_keywords`: with no configured keywords everything
passes; otherwise defer to `BidInfo.match_keywords`. -/
def match_keywords_stage (cfg : FilterConfig) (r : BidInfo) :
    Bool × BidInfo :=
  if cfg.keywords.isEmpty then (true, r)
  else r.match_keywords cfg.keywords

/-- `DataFilter._check_date_range`: `date_range <= 0` or a missing publish
date passes; otherwise compare against the date limit. -/
def check_date_range (cfg : FilterConfig) (r : BidInfo) : Bool :=
  if cfg.date_range ≤ 0 then true
  else
    match r.publish_date with
    | none => true
    | some d => is_date_in_range cfg.date_limit d

/-- Python truthiness of the optional budget: `None` and `0.0` are falsy
(`if not item.budget`). -/
def falsyBudget : Option ℚ → Bool
  | none => true
  | some b => decide (b = 0)

/-- `DataFilter._check_amount_range`: a falsy budget passes; otherwise
reject below a positive configured minimum or above a positive configured
maximum. -/
def check_amount_range (cfg : FilterConfig) (r : BidInfo) : Bool :=
  if falsyBudget r.budget then true
  else
    let b := r.budget.getD 0
    if 0 < cfg.min_amount ∧ b < cfg.min_amount then false
    else if 0 < cfg.max_amount ∧ cfg.max_amount < b then false
    else true

/-- `DataFilter._classify_industry`: no-op on an empty industry list,
otherwise `BidInfo.classify_industry`. -/
def classify_stage (cfg : FilterConfig) (r : BidInfo) : BidInfo :=
  if cfg.industries.isEmpty then r
  else r.classify_industry cfg.industries

/-- The stage at which `DataFilter.filter` settles one candidate — exactly
the per-stage counters of the `stats` dict. -/
inductive StageOutcome where
  | invalid
  | duplicate
  | noKeywords
  | outOfDate
  | outOfAmount
  | passed
deriving DecidableEq, Repr

/-- The per-candidate body of the loop in `DataFilter.filter`: validity,
dedup, keywords, date window, amount window, classification, in the
source's order and with its short-circuiting.  Returns the updated dedup
index, the accepted record (when it passed) and the settling stage. -/
def filterStep (md5 : String → String) (cfg : FilterConfig)
    (seen : DedupIndex) (r : BidInfo) :
    DedupIndex × Option BidInfo × StageOutcome :=
  if !r.is_valid then (seen, none, .invalid)
  else
    match check_duplicate md5 seen r with
    | (false, seen', _) => (seen', none, .duplicate)
    | (true, seen', r₁) =>
      match match_keywords_stage cfg r₁ with
      | (false, _) => (seen', none, .noKeywords)
      | (true, r₂) =>
        if !check_date_range cfg r₂ then (seen', none, .outOfDate)
        else if !check_amount_range cfg r₂ then (seen', none, .outOfAmount)
        else (seen', some (classify_stage cfg r₂), .passed)

/-- The loop of `DataFilter.filter`: thread the dedup index through the
candidates, collecting the accepted records in input order. -/
def filterRun (md5 : String → String) (cfg : FilterConfig) :
    DedupIndex → List BidInfo → DedupIndex × List BidInfo
  | seen, [] => (seen, [])
  | seen, r :: rest =>
    let s := filterStep md5 cfg seen r
    let t := filterRun md5 cfg s.1 rest
    (t.1, s.2.1.toList ++ t.2)

/-- `DataFilter.filter`: early return on an empty input list, otherwise
the filtering loop.  The first component is the updated `_seen_hashes`,
the second the accepted records. -/
def DataFilter.filter (md5 : String → String) (cfg : FilterConfig)
    (seen : DedupIndex) (items : List BidInfo) :
    DedupIndex × List BidInfo :=
  if items.isEmpty then (seen, [])
  else filterRun md5 cfg seen items

/-- `DataFilter.reset`: clear the dedup index. -/
def DataFilter.reset (_seen : DedupIndex) : DedupIndex := []

/-- One candidate dict produced by a source's `parse_list`
(`BaseParser.parse_list` contract): title, url, optional publish date and
purchaser. -/
structure RawItem where
  title : String := ""
  url : String := ""
  publish_date : Option Date := none
  purchaser : Option String := none
deriving DecidableEq, Repr

/-- The fetch/parse environment of one source: what
`get_list_url` + `HttpClient.get` + `parse_list` jointly produce for each
page number — either a list of candidates or a raised exception. -/
abbrev PageEnv := Nat → Except String (List RawItem)

/-- The per-item conversion inside `BaseParser.fetch_list`: drop items
with a falsy title or url, stamp `source` with the parser's name, build
the `BidInfo`. -/
def toBidInfo (srcName : String) (it : RawItem) : Option BidInfo :=
  if it.title == "" || it.url == "" then none
  else
    some { title := it.title, url := it.url, source := srcName,
           publish_date := it.publish_date, purchaser := it.purchaser }

/-- `BaseParser.fetch_list`: any exception from URL building, fetching or
parsing is caught (`except Exception`) and yields the empty list;
otherwise the parsed candidates are converted to `BidInfo`s. -/
def fetch_list (env : PageEnv) (srcName : String) (page : Nat) :
    List BidInfo :=
  match env page with
  | .error _ => []
  | .ok items => items.filterMap (toBidInfo srcName)

/-- The pagination loop of `BaseParser.fetch_all` over the page numbers
`1..max_pages`: fetch each page, stop at the first page that yields zero
items, accumulate the rest.  The second component records the pages
actually fetched, in order. -/
def fetchLoop (env : PageEnv) (srcName : String) :
    List Nat → List BidInfo → List Nat → List BidInfo × List Nat
  | [], acc, trace => (acc, trace)
  | p :: rest, acc, trace =>
    let items := fetch_list env srcName p
    if items.isEmpty then (acc, trace ++ [p])
    else fetchLoop env srcName rest (acc ++ items) (trace ++ [p])

/-- `BaseParser.fetch_all`: run the pagination loop over pages
`1..max_pages`, returning the collected records and the trace of fetched
pages.  (The `except` branch inside the source's loop is unreachable:
`fetch_list` already catches every exception.) -/
def fetch_all (env : PageEnv) (srcName : String) (maxPages : Nat) :
    List BidInfo × List Nat :=
  fetchLoop env srcName (List.range' 1 maxPages) [] []

/-- One configured website as `CrawlerEngine.crawl_website` sees it:
its name, whether a parser was registered for it, and the outcome of the
driver call `parser.fetch_all(...)` — a record list or a raised
exception. -/
structure Website where
  name : String := ""
  parserRegistered : Bool := true
  driverResult : Except String (List BidInfo) := .ok []

/-- `CrawlerEngine.crawl_website`: an unregistered parser yields `[]`;
an exception from the driver is caught (`except Exception`) and converted
to `[]`; otherwise the driver's records are returned. -/
def crawl_website (w : Website) : List BidInfo :=
  if !w.parserRegistered then []
  else
    match w.driverResult with
    | .ok items => items
    | .error _ => []

/-- The per-website loop of `CrawlerEngine.crawl_all`: extend the
accumulator with each website's records (a per-website exception would be
caught and skipped — `crawl_website` is total, so every website
contributes).  Also returns the names of the websites crawled. -/
def crawlLoop : List Website → List BidInfo × List String
  | [] => ([], [])
  | w :: rest =>
    let t := crawlLoop rest
    (crawl_website w ++ t.1, w.name :: t.2)

/-- `CrawlerEngine.crawl_all`: early return `[]` when no website is
enabled or no keyword is configured, otherwise crawl every website in
registration order.  The second component is the list of websites
actually crawled. -/
def crawl_all (websites : List Website) (keywords : List String) :
    List BidInfo × List String :=
  if websites.isEmpty then ([], [])
  else if keywords.isEmpty then ([], [])
  else crawlLoop websites

/-- Characters removed by `re.sub(r'[,，\s]', '', amount_str)`; the `\s`
class is the whitespace the program ever meets (ASCII). -/
def isStrippedChar (c : Char) : Bool :=
  c == ',' || c == '，' || c == ' ' || c == '\t' || c == '\n' ||
    c == '\r' || c == '\x0b' || c == '\x0c'

/-- `helpers.parse_amount` step 1: the cleaned character list. -/
def cleanAmount (s : String) : List Char :=
  s.data.filter (fun c => !isStrippedChar c)

/-- A character matched by the `[\d.]` class. -/
def isNumChar (c : Char) : Bool :=
  c.isDigit || c == '.'

/-- `re.search(r'([\d.]+)', ...)`: the first maximal run of digits and
dots, if any. -/
def firstNumRun : List Char → Option (List Char)
  | [] => none
  | c :: rest =>
    if isNumChar c then some (c :: rest.takeWhile isNumChar)
    else firstNumRun rest

/-- Decimal value of a digit run. -/
def natValChars (cs : List Char) : Nat :=
  cs.foldl (fun a c => a * 10 + (c.toNat - 48)) 0

/-- Python `float(...)` on a `[\d.]+` run: at most one dot and at least
one digit, integer part plus scaled fractional part; anything else (e.g.
`"1.2.3"` or `"."`) raises `ValueError`, i.e. `none`. -/
def parseFloatChars (cs : List Char) : Option ℚ :=
  let intPart := cs.takeWhile (fun c => c != '.')
  match cs.dropWhile (fun c => c != '.') with
  | [] => if intPart.isEmpty then none else some (natValChars intPart)
  | _ :: frac =>
    if frac.contains '.' then none
    else if intPart.isEmpty && frac.isEmpty then none
    else
      some ((natValChars intPart : ℚ) +
        (natValChars frac : ℚ) / (10 : ℚ) ^ frac.length)

/-- Python `round(x, 2)` on the exact values at hand: round
half-to-even at the second decimal. -/
def roundHalfEven (q : ℚ) : ℤ :=
  if q - ⌊q⌋ < 1 / 2 then ⌊q⌋
  else if 1 / 2 < q - ⌊q⌋ then ⌊q⌋ + 1
  else if ⌊q⌋ % 2 = 0 then ⌊q⌋ else ⌊q⌋ + 1

/-- `round(value, 2)`. -/
def round2 (q : ℚ) : ℚ :=
  (roundHalfEven (q * 100) : ℚ) / 100

/-- The unit-conversion `if/elif` chain of `helpers.parse_amount`,
applied to the cleaned string: `亿` scales by 10000, `万` is the target
unit, `千` divides by 10, a bare `元` divides by 10000, no unit means the
value is already in ten-thousands. -/
def applyUnit (cs : List Char) (v : ℚ) : ℚ :=
  if cs.contains '亿' then v * 10000
  else if cs.contains '万' then v
  else if cs.contains '千' then v / 10
  else if cs.contains '元' && !cs.contains '万' && !cs.contains '亿' then
    v / 10000
  else v

/-- `helpers.parse_amount`: clean the string, extract the first numeric
run, parse it as a float, convert by unit, round to two decimals. -/
def parse_amount (s : String) : Option ℚ :=
  if s == "" then none
  else
    let cs := cleanAmount s
    match firstNumRun cs with
    | none => none
    | some run =>
      match parseFloatChars run with
      | none => none
      | some v => some (round2 (applyUnit cs v))

/-! ### Helper lemmas about the filter pipeline -/

theorem uniqueStr_set_hash (r : BidInfo) (h : String) :
    uniqueStr { r with content_hash := some h } = uniqueStr r := rfl

theorem uniqueStr_match_stage (cfg : FilterConfig) (x : BidInfo) :
    uniqueStr (match_keywords_stage cfg x).2 = uniqueStr x := by
  simp only [match_keywords_stage, BidInfo.match_keywords]
  split_ifs <;> rfl

theorem uniqueStr_classify (cfg : FilterConfig) (r : BidInfo) :
    uniqueStr (classify_stage cfg r) = uniqueStr r := by
  simp only [classify_stage, BidInfo.classify_industry]
  split_ifs <;> try rfl
  split <;> rfl

theorem check_duplicate_eq (md5 : String → String) (seen : DedupIndex)
    (r : BidInfo) :
    check_duplicate md5 seen r =
      if hashVal md5 r ∈ seen then
        (false, seen, { r with content_hash := some (hashVal md5 r) })
      else
        (true, hashVal md5 r :: seen,
          { r with content_hash := some (hashVal md5 r) }) := rfl

theorem filterStep_invalid (md5 : String → String) (cfg : FilterConfig)
    (seen : DedupIndex) (r : BidInfo) (hv : r.is_valid = false) :
    filterStep md5 cfg seen r = (seen, none, .invalid) := by
  simp [filterStep, hv]

theorem filterStep_dup (md5 : String → String) (cfg : FilterConfig)
    (seen : DedupIndex) (r : BidInfo) (hv : r.is_valid = true)
    (hm : hashVal md5 r ∈ seen) :
    filterStep md5 cfg seen r = (seen, none, .duplicate) := by
  simp [filterStep, hv, check_duplicate_eq, hm]

theorem filterStep_insert (md5 : String → String) (cfg : FilterConfig)
    (seen : DedupIndex) (r : BidInfo) (hv : r.is_valid = true)
    (hm : hashVal md5 r ∉ seen) :
    (filterStep md5 cfg seen r).1 = hashVal md5 r :: seen ∧
    ∀ r', (filterStep md5 cfg seen r).2.1 = some r' →
      uniqueStr r' = uniqueStr r := by
  have hcd : check_duplicate md5 seen r =
      (true, hashVal md5 r :: seen,
        { r with content_hash := some (hashVal md5 r) }) := by
    rw [check_duplicate_eq, if_neg hm]
  simp only [filterStep, hv, Bool.not_true, Bool.false_eq_true, if_false,
    hcd]
  cases hk : match_keywords_stage cfg
      { r with content_hash := some (hashVal md5 r) } with
  | mk ok r₂ =>
    have hu2 : uniqueStr r₂ = uniqueStr r := by
      have := uniqueStr_match_stage cfg
        { r with content_hash := some (hashVal md5 r) }
      rw [hk] at this
      exact this
    cases ok
    · simp
    · by_cases hd : check_date_range cfg r₂ <;>
        by_cases ha : check_amount_range cfg r₂ <;>
          simp [hd, ha, uniqueStr_classify, hu2]

theorem filterStep_mono (md5 : String → String) (cfg : FilterConfig)
    (seen : DedupIndex) (r : BidInfo) :
    seen ⊆ (filterStep md5 cfg seen r).1 := by
  by_cases hv : r.is_valid
  · by_cases hm : hashVal md5 r ∈ seen
    · rw [filterStep_dup md5 cfg seen r hv hm]
      exact fun a ha => ha
    · rw [(filterStep_insert md5 cfg seen r hv hm).1]
      exact List.subset_cons_self _ _
  · rw [filterStep_invalid md5 cfg seen r (by simpa using hv)]
    exact fun a ha => ha

theorem filterStep_acc (md5 : String → String) (cfg : FilterConfig)
    (seen : DedupIndex) (r r' : BidInfo)
    (h : (filterStep md5 cfg seen r).2.1 = some r') :
    r.is_valid = true ∧ hashVal md5 r ∉ seen ∧
    hashVal md5 r ∈ (filterStep md5 cfg seen r).1 ∧
    hashVal md5 r' = hashVal md5 r := by
  by_cases hv : r.is_valid
  · by_cases hm : hashVal md5 r ∈ seen
    · rw [filterStep_dup md5 cfg seen r hv hm] at h
      simp at h
    · obtain ⟨h1, h2⟩ := filterStep_insert md5 cfg seen r hv hm
      exact ⟨hv, hm, by rw [h1]; exact List.mem_cons_self _ _,
        by rw [hashVal, hashVal, h2 r' h]⟩
  · rw [filterStep_invalid md5 cfg seen r (by simpa using hv)] at h
    simp at h

theorem filterRun_cons (md5 : String → String) (cfg : FilterConfig)
    (seen : DedupIndex) (r : BidInfo) (rest : List BidInfo) :
    filterRun md5 cfg seen (r :: rest) =
      ((filterRun md5 cfg (filterStep md5 cfg seen r).1 rest).1,
        (filterStep md5 cfg seen r).2.1.toList ++
          (filterRun md5 cfg (filterStep md5 cfg seen r).1 rest).2) := rfl

theorem filterRun_mono (md5 : String → String) (cfg : FilterConfig) :
    ∀ (L : List BidInfo) (seen : DedupIndex),
      seen ⊆ (filterRun md5 cfg seen L).1 := by
  intro L
  induction L with
  | nil => exact fun seen a ha => ha
  | cons r rest ih =>
    intro seen
    rw [filterRun_cons]
    exact (filterStep_mono md5 cfg seen r).trans (ih _)

theorem filterRun_acc_hash (md5 : String → String) (cfg : FilterConfig) :
    ∀ (L : List BidInfo) (seen : DedupIndex) (r' : BidInfo),
      r' ∈ (filterRun md5 cfg seen L).2 →
        hashVal md5 r' ∈ (filterRun md5 cfg seen L).1 := by
  intro L
  induction L with
  | nil => intro seen r' h; simp [filterRun] at h
  | cons r rest ih =>
    intro seen r' h
    rw [filterRun_cons] at h ⊢
    rcases List.mem_append.mp h with hl | hr
    · have hacc : (filterStep md5 cfg seen r).2.1 = some r' :=
        Option.mem_toList.mp hl
      have hf := filterStep_acc md5 cfg seen r r' hacc
      have : hashVal md5 r' ∈ (filterStep md5 cfg seen r).1 := by
        rw [hf.2.2.2]; exact hf.2.2.1
      exact filterRun_mono md5 cfg rest _ this
    · exact ih _ r' hr

theorem filterRun_countP (md5 : String → String) (cfg : FilterConfig)
    (hsh : String) :
    ∀ (L : List BidInfo) (seen : DedupIndex),
      List.countP (fun r' => decide (hashVal md5 r' = hsh))
          (filterRun md5 cfg seen L).2 ≤
        if hsh ∈ seen then 0 else 1 := by
  intro L
  induction L with
  | nil => intro seen; simp [filterRun]
  | cons r rest ih =>
    intro seen
    rw [filterRun_cons, List.countP_append]
    rcases hacc : (filterStep md5 cfg seen r).2.1 with _ | r'
    · have hb := ih (filterStep md5 cfg seen r).1
      by_cases hs : hsh ∈ seen
      · have hs' : hsh ∈ (filterStep md5 cfg seen r).1 :=
          filterStep_mono md5 cfg seen r hs
        simp only [hacc, Option.toList_none, List.countP_nil, zero_add,
          if_pos hs, if_pos hs'] at hb ⊢
        exact hb
      · simp only [hacc, Option.toList_none, List.countP_nil, zero_add,
          if_neg hs]
        exact hb.trans (by split <;> omega)
    · have hf := filterStep_acc md5 cfg seen r r' hacc
      have hseq : (filterStep md5 cfg seen r).1 = hashVal md5 r :: seen :=
        (filterStep_insert md5 cfg seen r hf.1 hf.2.1).1
      have hb := ih (filterStep md5 cfg seen r).1
      by_cases he : hashVal md5 r = hsh
      · have h1 : hsh ∈ (filterStep md5 cfg seen r).1 := by
          rw [hseq, ← he]; exact List.mem_cons_self _ _
        rw [if_pos h1] at hb
        have hs : hsh ∉ seen := he ▸ hf.2.1
        have hone : List.countP (fun x => decide (hashVal md5 x = hsh))
            (some r').toList = 1 := by
          simp [hf.2.2.2, he]
        rw [hone, if_neg hs]
        omega
      · have h2 : (hsh ∈ (filterStep md5 cfg seen r).1) ↔ hsh ∈ seen := by
          rw [hseq, List.mem_cons]
          constructor
          · rintro (h | h)
            · exact absurd h.symm he
            · exact h
          · exact fun h => Or.inr h
        have hne : ¬(hashVal md5 r' = hsh) := by rw [hf.2.2.2]; exact he
        simp only [hacc, Option.toList_some, List.countP_singleton,
          decide_eq_true_eq, if_neg hne, zero_add]
        by_cases hs : hsh ∈ seen
        · rw [if_pos hs]; rw [if_pos (h2.mpr hs)] at hb; exact hb
        · rw [if_neg hs]
          rw [if_neg (fun h => hs (h2.mp h))] at hb
          exact hb

theorem filterRun_seen_src (md5 : String → String) (cfg : FilterConfig)
    (hsh : String) :
    ∀ (L : List BidInfo) (seen : DedupIndex),
      hsh ∈ (filterRun md5 cfg seen L).1 →
        hsh ∈ seen ∨
          ∃ r, r ∈ L ∧ r.is_valid = true ∧ hashVal md5 r = hsh := by
  intro L
  induction L with
  | nil => intro seen h; exact Or.inl h
  | cons r rest ih =>
    intro seen h
    rw [filterRun_cons] at h
    rcases ih _ h with h1 | ⟨x, hx, hxv, hxh⟩
    · by_cases hv : r.is_valid
      · by_cases hm : hashVal md5 r ∈ seen
        · rw [filterStep_dup md5 cfg seen r hv hm] at h1
          exact Or.inl h1
        · rw [(filterStep_insert md5 cfg seen r hv hm).1] at h1
          rcases List.mem_cons.mp h1 with h2 | h2
          · exact Or.inr ⟨r, List.mem_cons_self _ _, hv, h2.symm⟩
          · exact Or.inl h2
      · rw [filterStep_invalid md5 cfg seen r (by simpa using hv)] at h1
        exact Or.inl h1
    · exact Or.inr ⟨x, List.mem_cons_of_mem _ hx, hxv, hxh⟩

theorem DataFilter.filter_eq_run (md5 : String → String)
    (cfg : FilterConfig) (seen : DedupIndex) (items : List BidInfo) :
    DataFilter.filter md5 cfg seen items = filterRun md5 cfg seen items := by
  cases items <;> rfl

/-! ### Claim C1: dedup monotonicity across two passes -/

/-- First pass of a candidate list through a fresh `DataFilter`
(`_seen_hashes` starts empty). -/
def pass1 (md5 : String → String) (cfg : FilterConfig) (L : List BidInfo) :
    DedupIndex × List BidInfo :=
  DataFilter.filter md5 cfg [] L

/-- Second pass of the same list through the same instance, without a
`reset()` in between. -/
def pass2 (md5 : String → String) (cfg : FilterConfig) (L : List BidInfo) :
    DedupIndex × List BidInfo :=
  DataFilter.filter md5 cfg (pass1 md5 cfg L).1 L

/-- Claim C1: feeding the same list `L` twice through one `DataFilter`
instance without `reset()` accepts each fingerprint at most once across
both passes combined; the dedup index only grows during the second pass,
and any record whose fingerprint entered `_seen_hashes` during the first
pass is rejected — at the dedup stage when it reaches it (i.e. when it is
valid), at the validity stage otherwise — wherever it is processed during
the second pass. -/
theorem dedup_two_pass_at_most_once (md5 : String → String)
    (cfg : FilterConfig) (L : List BidInfo) :
    (∀ hsh : String,
      List.countP (fun r' => decide (hashVal md5 r' = hsh))
        ((pass1 md5 cfg L).2 ++ (pass2 md5 cfg L).2) ≤ 1) ∧
    (∀ r ∈ L, hashVal md5 r ∈ (pass1 md5 cfg L).1 →
      ∀ seen' : DedupIndex, (pass1 md5 cfg L).1 ⊆ seen' →
        filterStep md5 cfg seen' r =
          (seen', none,
            if r.is_valid then StageOutcome.duplicate
            else StageOutcome.invalid)) ∧
    (∀ pre : List BidInfo,
      (pass1 md5 cfg L).1 ⊆
        (DataFilter.filter md5 cfg (pass1 md5 cfg L).1 pre).1) := by
  refine ⟨?_, ?_, ?_⟩
  · intro hsh
    have hP1 : pass1 md5 cfg L = filterRun md5 cfg [] L := by
      simp only [pass1, DataFilter.filter_eq_run]
    have hP2 : pass2 md5 cfg L =
        filterRun md5 cfg (filterRun md5 cfg [] L).1 L := by
      simp only [pass2, pass1, DataFilter.filter_eq_run]
    rw [hP1, hP2, List.countP_append]
    have h1 := filterRun_countP md5 cfg hsh L []
    have h2 := filterRun_countP md5 cfg hsh L (filterRun md5 cfg [] L).1
    simp only [List.not_mem_nil, if_false] at h1
    by_cases hp : 0 < List.countP (fun r' => decide (hashVal md5 r' = hsh))
        (filterRun md5 cfg [] L).2
    · obtain ⟨r', hr', hpr⟩ := List.countP_pos_iff.mp hp
      have hh : hashVal md5 r' = hsh := of_decide_eq_true hpr
      have hmem : hsh ∈ (filterRun md5 cfg [] L).1 :=
        hh ▸ filterRun_acc_hash md5 cfg L [] r' hr'
      rw [if_pos hmem] at h2
      omega
    · have h2' := h2.trans (by split <;> omega :
        (if hsh ∈ (filterRun md5 cfg [] L).1 then 0 else 1) ≤ 1)
      omega
  · intro r _ hmem seen' hsub
    cases hv : r.is_valid with
    | true => simpa [hv] using filterStep_dup md5 cfg seen' r hv (hsub hmem)
    | false => simpa [hv] using filterStep_invalid md5 cfg seen' r hv
  · intro pre
    rw [DataFilter.filter_eq_run]
    exact filterRun_mono md5 cfg pre _

/-- Identity stand-in for the hash function in concrete runs. -/
def wMd5 : String → String := fun s => s

/-- A concrete valid record. -/
def wRec : BidInfo := { title := "hello", url := "u", source := "s" }

/-- A concrete configuration with no keywords and no date window. -/
def wCfg : FilterConfig := { date_range := 0 }

/-- Witness for C1 on the list `[wRec, wRec]`. -/
theorem dedup_two_pass_at_most_once_witness :
    List.countP (fun r' => decide (hashVal wMd5 r' = "hello"))
        ((pass1 wMd5 wCfg [wRec, wRec]).2 ++
          (pass2 wMd5 wCfg [wRec, wRec]).2) ≤ 1 ∧
    filterStep wMd5 wCfg (pass1 wMd5 wCfg [wRec, wRec]).1 wRec =
      ((pass1 wMd5 wCfg [wRec, wRec]).1, none,
        if wRec.is_valid then StageOutcome.duplicate
        else StageOutcome.invalid) := by
  refine ⟨(dedup_two_pass_at_most_once wMd5 wCfg [wRec, wRec]).1 "hello", ?_⟩
  exact (dedup_two_pass_at_most_once wMd5 wCfg [wRec, wRec]).2.1 wRec
    (by decide) (by decide) _ (fun a ha => ha)

/-! ### Claim C2: invalid records never reach the dedup index -/

/-- Claim C2: every fingerprint in `_seen_hashes` after a `filter` call
was either there before or was contributed by a valid record of the
input, and an invalid record is settled at the validity stage: the step
returns immediately with outcome `invalid`, the dedup index unchanged and
nothing accepted — no later stage is evaluated. -/
theorem invalid_records_never_enter_dedup (md5 : String → String)
    (cfg : FilterConfig) (seen : DedupIndex) (L : List BidInfo) :
    (∀ hsh ∈ (DataFilter.filter md5 cfg seen L).1,
      hsh ∈ seen ∨
        ∃ r, r ∈ L ∧ r.is_valid = true ∧ hashVal md5 r = hsh) ∧
    (∀ r : BidInfo, r.is_valid = false →
      ∀ s : DedupIndex, filterStep md5 cfg s r = (s, none, .invalid)) := by
  constructor
  · intro hsh hmem
    rw [DataFilter.filter_eq_run] at hmem
    exact filterRun_seen_src md5 cfg hsh L seen hmem
  · intro r hv s
    exact filterStep_invalid md5 cfg s r hv

/-- A concrete invalid record (title shorter than 5 characters). -/
def wBad : BidInfo := { title := "x", url := "u", source := "s" }

/-- Witness for C2 on the list `[wRec, wBad]`. -/
theorem invalid_records_never_enter_dedup_witness :
    ("hello" ∈ [] ∨
      ∃ r, r ∈ [wRec, wBad] ∧ r.is_valid = true ∧
        hashVal wMd5 r = "hello") ∧
    filterStep wMd5 wCfg ["z"] wBad = (["z"], none, .invalid) := by
  refine ⟨?_, ?_⟩
  · exact (invalid_records_never_enter_dedup wMd5 wCfg [] [wRec, wBad]).1
      "hello" (by decide)
  · exact (invalid_records_never_enter_dedup wMd5 wCfg [] [wRec, wBad]).2
      wBad (by decide) ["z"]

/-! ### Claim C3: fingerprinting is deterministic and idempotent -/

/-- The fingerprint input as the specification words it: the MD5 digest is
taken of the title, extended by `"_" + publish_date` as `YYYYMMDD` only
when the date is set, then by `"_" + purchaser` only when the purchaser is
non-empty. -/
def specFingerprintBase (r : BidInfo) : String :=
  r.title
    ++ (match r.publish_date with
        | some d => "_" ++ d.fmtYYYYMMDD
        | none => "")
    ++ (match r.purchaser with
        | some p => if p = "" then "" else "_" ++ p
        | none => "")

/-- Claim C3: `calculate_hash` run twice without mutating title, publish
date or purchaser returns the same value and leaves the record fixed
after the first call, and the value is the digest of exactly the string
the specification describes. -/
theorem calculate_hash_idempotent (md5 : String → String) (r : BidInfo) :
    ((r.calculate_hash md5).2.calculate_hash md5).1 =
      (r.calculate_hash md5).1 ∧
    ((r.calculate_hash md5).2.calculate_hash md5).2 =
      (r.calculate_hash md5).2 ∧
    (r.calculate_hash md5).1 = md5 (specFingerprintBase r) := by
  refine ⟨rfl, rfl, ?_⟩
  have : uniqueStr r = specFingerprintBase r := by
    cases hp : r.purchaser with
    | none => simp [uniqueStr, specFingerprintBase, truthyStr, hp]
    | some p =>
      by_cases he : p = "" <;>
        simp [uniqueStr, specFingerprintBase, truthyStr, hp, he]
  simp [BidInfo.calculate_hash, this]

/-! ### Claim C4: the keyword stage -/

/-- Claim C4: with an empty configured keyword list the stage passes every
record untouched; with a non-empty list it passes a record iff some
keyword is a case-insensitive substring of the title, and on success it
stores exactly the matching keywords, in keyword-list order, on the
record. -/
theorem keyword_stage_spec (cfg : FilterConfig) (r : BidInfo) :
    (cfg.keywords = [] → match_keywords_stage cfg r = (true, r)) ∧
    (cfg.keywords ≠ [] →
      ((match_keywords_stage cfg r).1 = true ↔
        ∃ k ∈ cfg.keywords, strContainsCI r.title k = true) ∧
      ((match_keywords_stage cfg r).1 = true →
        (match_keywords_stage cfg r).2 =
          { r with matched_keywords :=
              cfg.keywords.filter (fun k => strContainsCI r.title k) })) := by
  constructor
  · intro h
    simp [match_keywords_stage, h]
  · intro h
    have hne : cfg.keywords.isEmpty = false := by
      cases hk : cfg.keywords with
      | nil => exact absurd hk h
      | cons a l => rfl
    by_cases hm : (cfg.keywords.filter (fun k => strContainsCI r.title k)) = []
    · have hstage : match_keywords_stage cfg r = (false, r) := by
        simp [match_keywords_stage, BidInfo.match_keywords, hne, hm]
      have hnone : ∀ k ∈ cfg.keywords, ¬strContainsCI r.title k = true :=
        List.filter_eq_nil_iff.mp hm
      constructor
      · refine iff_of_false (by simp [hstage]) ?_
        rintro ⟨k, hk, hpk⟩
        exact hnone k hk hpk
      · intro ht
        rw [hstage] at ht
        simp at ht
    · have hstage : match_keywords_stage cfg r =
          (true, { r with matched_keywords :=
            cfg.keywords.filter (fun k => strContainsCI r.title k) }) := by
        cases hflt : cfg.keywords.filter (fun k => strContainsCI r.title k)
          with
        | nil => exact absurd hflt hm
        | cons a t =>
          simp [match_keywords_stage, BidInfo.match_keywords, hne, hflt]
      have hex : ∃ k ∈ cfg.keywords, strContainsCI r.title k = true := by
        by_contra hno
        push_neg at hno
        refine hm (List.filter_eq_nil_iff.mpr ?_)
        intro a ha
        simpa using hno a ha
      exact ⟨by rw [hstage]; simpa using hex, fun _ => by rw [hstage]⟩

/-- The keyword configuration of the specification's worked example. -/
def wKwCfg : FilterConfig := { keywords := ["养护", "采购"] }

/-- The record of the specification's worked example. -/
def wKwRec : BidInfo :=
  { title := "市政道路养护采购公告", url := "u", source := "s" }

/-- Witness for C4 on the specification's worked example. -/
theorem keyword_stage_spec_witness :
    (match_keywords_stage wKwCfg wKwRec).1 = true ∧
    (match_keywords_stage wKwCfg wKwRec).2 =
      { wKwRec with matched_keywords :=
          wKwCfg.keywords.filter (fun k => strContainsCI wKwRec.title k) } := by
  have h := (keyword_stage_spec wKwCfg wKwRec).2 (by decide)
  have ht := h.1.mpr ⟨"养护", by decide, by decide⟩
  exact ⟨ht, h.2 ht⟩

/-! ### Pagination driver lemmas (claims C5 and C6) -/

/-- The prefix of the page list actually visited by the pagination loop:
every page up to and including the first one satisfying `f`
("this page produced zero items"). -/
def takeToEmpty (f : Nat → Bool) : List Nat → List Nat
  | [] => []
  | p :: rest => if f p then [p] else p :: takeToEmpty f rest

theorem fetchLoop_trace (env : PageEnv) (srcName : String) :
    ∀ (ps : List Nat) (acc : List BidInfo) (trace : List Nat),
      (fetchLoop env srcName ps acc trace).2 =
        trace ++
          takeToEmpty (fun p => (fetch_list env srcName p).isEmpty) ps := by
  intro ps
  induction ps with
  | nil => intro acc trace; simp [fetchLoop, takeToEmpty]
  | cons p rest ih =>
    intro acc trace
    by_cases hp : (fetch_list env srcName p).isEmpty
    · simp [fetchLoop, takeToEmpty, hp]
    · simp only [fetchLoop, takeToEmpty, hp, Bool.false_eq_true, if_false,
        ih]
      simp

theorem fetchLoop_acc (env : PageEnv) (srcName : String) :
    ∀ (ps : List Nat) (acc : List BidInfo) (trace : List Nat),
      (fetchLoop env srcName ps acc trace).1 =
        acc ++
          (takeToEmpty (fun p => (fetch_list env srcName p).isEmpty)
            ps).flatMap (fetch_list env srcName) := by
  intro ps
  induction ps with
  | nil => intro acc trace; simp [fetchLoop, takeToEmpty]
  | cons p rest ih =>
    intro acc trace
    by_cases hp : (fetch_list env srcName p).isEmpty
    · have hnil : fetch_list env srcName p = [] := List.isEmpty_iff.mp hp
      simp [fetchLoop, takeToEmpty, hp, hnil]
    · simp only [fetchLoop, takeToEmpty, hp, Bool.false_eq_true, if_false,
        ih]
      simp

theorem takeToEmpty_subset (f : Nat → Bool) :
    ∀ ps : List Nat, takeToEmpty f ps ⊆ ps := by
  intro ps
  induction ps with
  | nil => simp [takeToEmpty]
  | cons p rest ih =>
    by_cases hp : f p
    · simp only [takeToEmpty, hp, if_true]
      intro a ha
      rw [List.mem_singleton.mp ha]
      exact List.mem_cons_self _ _
    · simp only [takeToEmpty, hp, Bool.false_eq_true, if_false]
      exact List.cons_subset_cons p ih

theorem takeToEmpty_length (f : Nat → Bool) :
    ∀ ps : List Nat, (takeToEmpty f ps).length ≤ ps.length := by
  intro ps
  induction ps with
  | nil => simp [takeToEmpty]
  | cons p rest ih =>
    by_cases hp : f p
    · rw [takeToEmpty, if_pos hp]
      simp only [List.length_cons, List.length_nil]
      omega
    · rw [takeToEmpty, if_neg hp]
      simp only [List.length_cons]
      omega

theorem takeToEmpty_le (f : Nat → Bool) :
    ∀ ps : List Nat, ps.Pairwise (· < ·) →
      ∀ k, k ∈ takeToEmpty f ps → f k = true →
        ∀ j ∈ takeToEmpty f ps, j ≤ k := by
  intro ps
  induction ps with
  | nil => intro _ k hk; simp [takeToEmpty] at hk
  | cons p rest ih =>
    intro hpw k hk hfk j hj
    have hlt : ∀ x ∈ rest, p < x := (List.pairwise_cons.mp hpw).1
    have hrest : rest.Pairwise (· < ·) := (List.pairwise_cons.mp hpw).2
    by_cases hp : f p
    · simp only [takeToEmpty, hp, if_true, List.mem_singleton] at hk hj
      rw [hj, hk]
    · simp only [takeToEmpty, hp, Bool.false_eq_true, if_false,
        List.mem_cons] at hk hj
      rcases hk with hk | hk
      · rw [hk] at hfk
        rw [hfk] at hp
        exact absurd rfl hp
      · rcases hj with hj | hj
        · have : p < k := hlt k (takeToEmpty_subset f rest hk)
          omega
        · exact ih hrest k hk hfk j hj

/-! ### Claim C5: pagination terminates at the first empty page -/

/-- Claim C5: if a fetched page `k` yields zero records, page `k+1` is
never fetched, and the driver never fetches more than `maxPages` pages
(the second component of `fetch_all` is the trace of fetched pages). -/
theorem pagination_stops_after_empty_page (env : PageEnv)
    (srcName : String) (maxPages : Nat) :
    (∀ k, k ∈ (fetch_all env srcName maxPages).2 →
      fetch_list env srcName k = [] →
        (k + 1) ∉ (fetch_all env srcName maxPages).2) ∧
    (fetch_all env srcName maxPages).2.length ≤ maxPages := by
  have htr : (fetch_all env srcName maxPages).2 =
      takeToEmpty (fun p => (fetch_list env srcName p).isEmpty)
        (List.range' 1 maxPages) := by
    simp [fetch_all, fetchLoop_trace]
  constructor
  · intro k hk hke hk1
    rw [htr] at hk hk1
    have hfk : (fetch_list env srcName k).isEmpty = true := by
      rw [hke]; rfl
    have := takeToEmpty_le _ (List.range' 1 maxPages)
      (List.pairwise_lt_range' 1 maxPages) k hk hfk (k + 1) hk1
    omega
  · rw [htr]
    have := takeToEmpty_length
      (fun p => (fetch_list env srcName p).isEmpty) (List.range' 1 maxPages)
    simpa [List.length_range'] using this

/-- A page environment with data on page 1 and an empty page 2. -/
def wPageEnv : PageEnv := fun p =>
  if p = 1 then .ok [{ title := "hello", url := "u" }] else .ok []

/-- Witness for C5: with data only on page 1 of 3, page 2 is fetched,
found empty, and page 3 is never fetched. -/
theorem pagination_stops_after_empty_page_witness :
    (3 : Nat) ∉ (fetch_all wPageEnv "A" 3).2 ∧
    (fetch_all wPageEnv "A" 3).2.length ≤ 3 := by
  refine ⟨?_, (pagination_stops_after_empty_page wPageEnv "A" 3).2⟩
  exact (pagination_stops_after_empty_page wPageEnv "A" 3).1 2
    (by decide) (by decide)

/-! ### Claim C6: behaviour of the driver when a page fetch/parse fails -/

/-- A page environment whose page 1 raises and whose page 2 has data. -/
def wFailEnv : PageEnv := fun p =>
  if p = 1 then .error "boom"
  else if p = 2 then .ok [{ title := "hello", url := "u" }] else .ok []

/-- Counterexample to claim C6 as stated: with an exception on page 1 and
data available on page 2 (`maxPages = 3`), the driver fetches only page 1
and never attempts page 2 — the failed page is treated as empty and
pagination stops instead of continuing to the next page. -/
theorem page_failure_counterexample :
    wFailEnv 1 = .error "boom" ∧
    fetch_list wFailEnv "A" 2 ≠ [] ∧
    (fetch_all wFailEnv "A" 3).2 = [1] ∧
    (2 : Nat) ∉ (fetch_all wFailEnv "A" 3).2 := by
  exact ⟨rfl, by decide, by decide, by decide⟩

/-- Claim C6 (amended): when the fetch or parse of page `k` raises, the
error is caught inside `fetch_list` (and logged) and the page is treated
as having produced zero items; `fetch_all` then treats that page as the
pagination-termination signal — it stops, never fetching any page after
`k`, while the records gathered from the earlier pages are kept (the
returned list is exactly the concatenation of what every fetched page
produced) and the failure never propagates out of the driver. -/
theorem page_failure_stops_pagination (env : PageEnv) (srcName : String)
    (maxPages k : Nat) (e : String) (he : env k = .error e)
    (hk : k ∈ (fetch_all env srcName maxPages).2) :
    (k + 1) ∉ (fetch_all env srcName maxPages).2 ∧
    (∀ j ∈ (fetch_all env srcName maxPages).2, j ≤ k) ∧
    (fetch_all env srcName maxPages).1 =
      ((fetch_all env srcName maxPages).2).flatMap
        (fetch_list env srcName) := by
  have hke : fetch_list env srcName k = [] := by
    simp [fetch_list, he]
  have htr : (fetch_all env srcName maxPages).2 =
      takeToEmpty (fun p => (fetch_list env srcName p).isEmpty)
        (List.range' 1 maxPages) := by
    simp [fetch_all, fetchLoop_trace]
  have hfk : (fetch_list env srcName k).isEmpty = true := by
    rw [hke]; rfl
  have hle := takeToEmpty_le
    (fun p => (fetch_list env srcName p).isEmpty) (List.range' 1 maxPages)
    (List.pairwise_lt_range' 1 maxPages) k (htr ▸ hk) hfk
  refine ⟨?_, ?_, ?_⟩
  · intro hk1
    have := hle (k + 1) (htr ▸ hk1)
    omega
  · intro j hj
    exact hle j (htr ▸ hj)
  · rw [htr]
    simp [fetch_all, fetchLoop_acc]

/-- Witness for the amended C6 on `wFailEnv`. -/
theorem page_failure_stops_pagination_witness :
    (2 : Nat) ∉ (fetch_all wFailEnv "A" 3).2 ∧
    (∀ j ∈ (fetch_all wFailEnv "A" 3).2, j ≤ 1) ∧
    (fetch_all wFailEnv "A" 3).1 =
      ((fetch_all wFailEnv "A" 3).2).flatMap (fetch_list wFailEnv "A") := by
  have h := page_failure_stops_pagination wFailEnv "A" 3 1 "boom" rfl
    (by decide)
  exact ⟨by simpa using h.1, h.2.1, h.2.2⟩

/-! ### Claim C7: one source's failure never aborts the run -/

theorem crawlLoop_eq (websites : List Website) :
    crawlLoop websites =
      (websites.flatMap crawl_website, websites.map Website.name) := by
  induction websites with
  | nil => rfl
  | cons w rest ih => simp [crawlLoop, ih]

/-- Claim C7: with a non-empty website list and a non-empty keyword set,
`crawl_all` visits every website in registration order and returns the
concatenation of the per-website results; a website whose driver raised
is converted (inside `crawl_website`) to an empty contribution, so one
source's failure neither aborts the loop nor loses the other sources'
records. -/
theorem crawl_all_isolates_failures (websites : List Website)
    (keywords : List String) (hw : websites ≠ []) (hk : keywords ≠ []) :
    (crawl_all websites keywords).1 = websites.flatMap crawl_website ∧
    (crawl_all websites keywords).2 = websites.map Website.name ∧
    ∀ w ∈ websites, (∃ e, w.driverResult = .error e) →
      crawl_website w = [] := by
  have hw' : websites.isEmpty = false := by
    cases websites with
    | nil => exact absurd rfl hw
    | cons a l => rfl
  have hk' : keywords.isEmpty = false := by
    cases keywords with
    | nil => exact absurd rfl hk
    | cons a l => rfl
  have hall : crawl_all websites keywords = crawlLoop websites := by
    simp [crawl_all, hw', hk']
  refine ⟨?_, ?_, ?_⟩
  · rw [hall, crawlLoop_eq]
  · rw [hall, crawlLoop_eq]
  · rintro w _ ⟨e, he⟩
    cases hr : w.parserRegistered <;> simp [crawl_website, hr, he]

/-- A website whose driver succeeded with one record. -/
def wOkSite : Website := { name := "A", driverResult := .ok [wRec] }

/-- A website whose driver raised. -/
def wErrSite : Website := { name := "B", driverResult := .error "boom" }

/-- Witness for C7: the failing site B contributes nothing while site A's
records survive, in registration order. -/
theorem crawl_all_isolates_failures_witness :
    (crawl_all [wOkSite, wErrSite] ["k"]).1 =
      [wOkSite, wErrSite].flatMap crawl_website ∧
    (crawl_all [wOkSite, wErrSite] ["k"]).2 = ["A", "B"] ∧
    crawl_website wErrSite = [] := by
  have h := crawl_all_isolates_failures [wOkSite, wErrSite] ["k"]
    (List.cons_ne_nil _ _) (List.cons_ne_nil _ _)
  exact ⟨h.1, h.2.1, h.2.2 wErrSite
    (List.mem_cons_of_mem _ (List.mem_cons_self _ _)) ⟨"boom", rfl⟩⟩

/-! ### Claim C8: the amount stage -/

/-- The configuration of the amount-stage counterexample: minimum 5. -/
def wAmtCfg : FilterConfig := { min_amount := 5 }

/-- A record with a zero budget. -/
def wZeroRec : BidInfo :=
  { title := "hello", url := "u", source := "s", budget := some 0 }

/-- Counterexample to claim C8 as stated: a record whose budget is `0`
with a configured minimum `5 > 0` is *not* rejected — Python's
`if not item.budget` treats a zero budget like a missing one, so the
record passes the amount stage even though `budget < minimum`. -/
theorem amount_stage_zero_budget_counterexample :
    wZeroRec.budget = some 0 ∧
    (0 : ℚ) < wAmtCfg.min_amount ∧
    (wZeroRec.budget.getD 0) < wAmtCfg.min_amount ∧
    check_amount_range wAmtCfg wZeroRec = true := by
  exact ⟨rfl, by decide, by decide, by decide⟩

/-- Claim C8 (amended): the amount stage passes every record whose budget
is absent **or zero** (Python falsiness); for a record with a non-zero
budget `b` it rejects exactly when a configured minimum is positive and
`b` is below it, or a configured maximum is positive and `b` is above
it. -/
theorem amount_stage_spec_amended (cfg : FilterConfig) (r : BidInfo) :
    (r.budget = none ∨ r.budget = some 0 →
      check_amount_range cfg r = true) ∧
    (∀ b : ℚ, r.budget = some b → b ≠ 0 →
      (check_amount_range cfg r = false ↔
        (0 < cfg.min_amount ∧ b < cfg.min_amount) ∨
        (0 < cfg.max_amount ∧ cfg.max_amount < b))) := by
  constructor
  · rintro (hb | hb) <;> simp [check_amount_range, falsyBudget, hb]
  · intro b hb hb0
    have hf : falsyBudget r.budget = false := by
      simp [falsyBudget, hb, hb0]
    rw [check_amount_range, hf]
    simp only [Bool.false_eq_true, if_false, hb, Option.getD_some]
    by_cases h1 : 0 < cfg.min_amount ∧ b < cfg.min_amount
    · simp [h1]
    · by_cases h2 : 0 < cfg.max_amount ∧ cfg.max_amount < b
      · simp [h1, h2]
      · simp [h1, h2]

/-- A record with budget 3 (below the configured minimum 5). -/
def wLowRec : BidInfo :=
  { title := "hello", url := "u", source := "s", budget := some 3 }

/-- Witness for the amended C8: a missing budget passes, a non-zero
budget below the minimum is rejected. -/
theorem amount_stage_spec_amended_witness :
    check_amount_range wAmtCfg wRec = true ∧
    check_amount_range wAmtCfg wLowRec = false := by
  refine ⟨(amount_stage_spec_amended wAmtCfg wRec).1 (Or.inl rfl), ?_⟩
  exact ((amount_stage_spec_amended wAmtCfg wLowRec).2 3 rfl
    (by decide)).mpr (Or.inl ⟨by decide, by decide⟩)

/-! ### Claim C10: the run entry point with an empty configuration -/

/-- Claim C10: with an empty keyword set (or an empty enabled-website
list) `crawl_all` returns the empty record list and crawls no website at
all — even though the filter's keyword stage passes everything when the
keyword set is empty. -/
theorem crawl_all_empty_config_early_return (websites : List Website)
    (keywords : List String) :
    (keywords = [] → crawl_all websites keywords = ([], [])) ∧
    (websites = [] → crawl_all websites keywords = ([], [])) ∧
    (∀ (cfg : FilterConfig) (r : BidInfo), cfg.keywords = [] →
      match_keywords_stage cfg r = (true, r)) := by
  refine ⟨?_, ?_, ?_⟩
  · intro h
    rcases websites with _ | ⟨w, ws⟩ <;> simp [crawl_all, h]
  · intro h
    simp [crawl_all, h]
  · intro cfg r h
    simp [match_keywords_stage, h]

/-- Witness for C10. -/
theorem crawl_all_empty_config_early_return_witness :
    crawl_all [wOkSite] [] = ([], []) ∧
    crawl_all [] ["k"] = ([], []) ∧
    match_keywords_stage wCfg wRec = (true, wRec) := by
  exact ⟨(crawl_all_empty_config_early_return [wOkSite] []).1 rfl,
    (crawl_all_empty_config_early_return [] ["k"]).2.1 rfl,
    (crawl_all_empty_config_early_return [] []).2.2 wCfg wRec rfl⟩

/-! ### Claim C9: amount normalization -/

theorem parse_amount_eq (s : String) (run : List Char) (v : ℚ)
    (hs : (s == "") = false)
    (hrun : firstNumRun (cleanAmount s) = some run)
    (hfl : parseFloatChars run = some v) :
    parse_amount s = some (round2 (applyUnit (cleanAmount s) v)) := by
  simp only [parse_amount, hs, Bool.false_eq_true, if_false, hrun, hfl]

/-- Counterexample to claim C9 as stated: the cleaned `"5千元"` carries
`元` and neither `万` nor `亿`, so the claim predicts division by 10000,
i.e. `round2 (5 / 10000) = 0`; but the `elif` chain of `parse_amount`
tests `千` before `元`, divides by 10, and returns `0.5`. -/
theorem parse_amount_yuan_counterexample :
    (cleanAmount "5千元").contains '元' = true ∧
    (cleanAmount "5千元").contains '万' = false ∧
    (cleanAmount "5千元").contains '亿' = false ∧
    parse_amount "5千元" = some ((1 : ℚ) / 2) ∧
    round2 ((5 : ℚ) / 10000) = 0 ∧
    parse_amount "5千元" ≠ some (round2 ((5 : ℚ) / 10000)) := by
  have hparse : parse_amount "5千元" = some ((1 : ℚ) / 2) := by
    have hfl : parseFloatChars ['5'] = some ((5 : ℚ)) := by
      have h : parseFloatChars ['5'] = some ((natValChars ['5'] : ℚ)) := rfl
      rw [h, show natValChars ['5'] = 5 from by decide]
      norm_num
    rw [parse_amount_eq "5千元" ['5'] 5 (by decide) (by decide) hfl]
    rw [show cleanAmount "5千元" = ['5', '千', '元'] from by decide]
    rw [show applyUnit ['5', '千', '元'] (5 : ℚ) = (5 : ℚ) / 10 from by
      rw [applyUnit, if_neg (by decide), if_neg (by decide),
        if_pos (by decide)]]
    have hfloor : ⌊(5 : ℚ) / 10 * 100⌋ = 50 := by norm_num
    have hr : roundHalfEven ((5 : ℚ) / 10 * 100) = 50 := by
      rw [roundHalfEven, if_pos (by rw [hfloor]; norm_num), hfloor]
    rw [round2, hr]
    norm_num
  have hzero : round2 ((5 : ℚ) / 10000) = 0 := by
    have hfloor : ⌊(5 : ℚ) / 10000 * 100⌋ = 0 := by norm_num
    have hr : roundHalfEven ((5 : ℚ) / 10000 * 100) = 0 := by
      rw [roundHalfEven, if_pos (by rw [hfloor]; norm_num), hfloor]
    rw [round2, hr]
    norm_num
  refine ⟨by decide, by decide, by decide, hparse, hzero, ?_⟩
  intro h
  rw [hparse, hzero] at h
  have := Option.some.inj h
  norm_num at this

/-- Claim C9 (amended): `parse_amount` normalizes to units of
ten-thousand: `"1.5亿元"` gives `15000`, `"50000元"` gives `5`; in
general a value carrying `亿` is multiplied by 10000, one carrying `元`
without `万`, `亿` **or `千`** is divided by 10000 (the `elif` chain
tests `千` first, so a value carrying `千` is divided by 10 instead),
and the parsed value is returned rounded to two decimal places. -/
theorem parse_amount_normalization :
    parse_amount "1.5亿元" = some 15000 ∧
    parse_amount "50000元" = some 5 ∧
    (∀ (cs : List Char) (v : ℚ), cs.contains '亿' = true →
      applyUnit cs v = v * 10000) ∧
    (∀ (cs : List Char) (v : ℚ), cs.contains '亿' = false →
      cs.contains '万' = false → cs.contains '千' = false →
      cs.contains '元' = true → applyUnit cs v = v / 10000) ∧
    (∀ (s : String) (run : List Char) (v : ℚ), ¬s = "" →
      firstNumRun (cleanAmount s) = some run →
      parseFloatChars run = some v →
      parse_amount s = some (round2 (applyUnit (cleanAmount s) v))) := by
  refine ⟨?_, ?_, ?_, ?_, ?_⟩
  · have hfl : parseFloatChars ['1', '.', '5'] = some ((3 : ℚ) / 2) := by
      have h : parseFloatChars ['1', '.', '5'] =
          some ((natValChars ['1'] : ℚ) +
            (natValChars ['5'] : ℚ) / (10 : ℚ) ^ 1) := rfl
      rw [h, show natValChars ['1'] = 1 from by decide,
        show natValChars ['5'] = 5 from by decide]
      norm_num
    rw [parse_amount_eq "1.5亿元" ['1', '.', '5'] ((3 : ℚ) / 2)
      (by decide) (by decide) hfl]
    rw [show cleanAmount "1.5亿元" = ['1', '.', '5', '亿', '元'] from
      by decide]
    rw [show applyUnit ['1', '.', '5', '亿', '元'] ((3 : ℚ) / 2) =
        ((3 : ℚ) / 2) * 10000 from by rw [applyUnit, if_pos (by decide)]]
    have hfloor : ⌊(3 : ℚ) / 2 * 10000 * 100⌋ = 1500000 := by norm_num
    have hr : roundHalfEven ((3 : ℚ) / 2 * 10000 * 100) = 1500000 := by
      rw [roundHalfEven, if_pos (by rw [hfloor]; norm_num), hfloor]
    rw [round2, hr]
    norm_num
  · have hfl : parseFloatChars ['5', '0', '0', '0', '0'] =
        some ((50000 : ℚ)) := by
      have h : parseFloatChars ['5', '0', '0', '0', '0'] =
          some ((natValChars ['5', '0', '0', '0', '0'] : ℚ)) := rfl
      rw [h, show natValChars ['5', '0', '0', '0', '0'] = 50000 from
        by decide]
      norm_num
    rw [parse_amount_eq "50000元" ['5', '0', '0', '0', '0'] 50000
      (by decide) (by decide) hfl]
    rw [show cleanAmount "50000元" = ['5', '0', '0', '0', '0', '元'] from
      by decide]
    rw [show applyUnit ['5', '0', '0', '0', '0', '元'] (50000 : ℚ) =
        (50000 : ℚ) / 10000 from by
      rw [applyUnit, if_neg (by decide), if_neg (by decide),
        if_neg (by decide), if_pos (by decide)]]
    have hfloor : ⌊(50000 : ℚ) / 10000 * 100⌋ = 500 := by norm_num
    have hr : roundHalfEven ((50000 : ℚ) / 10000 * 100) = 500 := by
      rw [roundHalfEven, if_pos (by rw [hfloor]; norm_num), hfloor]
    rw [round2, hr]
    norm_num
  · intro cs v h
    rw [applyUnit, if_pos h]
  · intro cs v h1 h2 h3 h4
    have hcond :
        (cs.contains '元' && !cs.contains '万' && !cs.contains '亿') =
          true := by
      simp only [Bool.and_eq_true, Bool.not_eq_true']
      exact ⟨⟨h4, h2⟩, h1⟩
    rw [applyUnit, if_neg (by simpa using h1), if_neg (by simpa using h2),
      if_neg (by simpa using h3), if_pos hcond]
  · intro s run v hs hrun hfl
    exact parse_amount_eq s run v
      (by cases hb : s == "" with
        | true => exact absurd (by simpa using hb) hs
        | false => rfl) hrun hfl

/-- Witness for C9: the `亿` unit law at a concrete input and the general
shape of `parse_amount` at `"2亿"`. -/
theorem parse_amount_normalization_witness :
    applyUnit ['亿'] 7 = 7 * 10000 ∧
    parse_amount "2亿" =
      some (round2 (applyUnit (cleanAmount "2亿") (natValChars ['2'] : ℚ))) := by
  refine ⟨parse_amount_normalization.2.2.1 ['亿'] 7 (by decide), ?_⟩
  exact parse_amount_normalization.2.2.2.2 "2亿" ['2']
    (natValChars ['2'] : ℚ) (by decide) (by decide) rfl

end BidCrawler
